import Mathlib

/-!
Verification of the fig buffer library: a reference-counted, zero-copy-sliceable
buffer abstraction (FigBuf) with static-vs-heap backing and copy-on-write
mutation, plus a small-buffer-optimized variant (SmallFigBuf).

The Rust heap of Arc allocations is modelled by an explicit store mapping
allocation ids to their payload and strong count.  Each Rust method that
touches reference counts becomes a function threading the store.
-/

namespace Fig

/-- The store of live Arc allocations: payload and strong count per id,
plus the next fresh id. -/
structure Store (α : Type) where
  data : Nat → List α
  count : Nat → Nat
  next : Nat

/-- The empty store: no allocations yet. -/
def Store.empty (α : Type) : Store α :=
  { data := fun _ => [], count := fun _ => 0, next := 0 }

/-- Increment the strong count of allocation id (Arc::clone). -/
def Store.bump {α : Type} (s : Store α) (id : Nat) : Store α :=
  { s with count := fun j => if j = id then s.count j + 1 else s.count j }

/-- Decrement the strong count of allocation id (dropping one Arc handle). -/
def Store.dec {α : Type} (s : Store α) (id : Nat) : Store α :=
  { s with count := fun j => if j = id then s.count j - 1 else s.count j }

/-- Allocate a fresh Arc holding v, with strong count 1. -/
def Store.alloc {α : Type} (s : Store α) (v : List α) : Nat × Store α :=
  (s.next,
   { data := fun j => if j = s.next then v else s.data j,
     count := fun j => if j = s.next then 1 else s.count j,
     next := s.next + 1 })

/-- Backing of a view: a static (immortal) reference or an Arc allocation id.
Mirrors enum Inner of src/lib.rs. -/
inductive Inner (α : Type) where
  | static : List α → Inner α
  | arc : Nat → Inner α
deriving DecidableEq

/-- Clone of the backing handle: identity for static, count increment for Arc.
Mirrors impl Clone for Inner. -/
def Inner.clone {α : Type} : Inner α → Store α → Inner α × Store α
  | .static d, s => (.static d, s)
  | .arc id, s => (.arc id, s.bump id)

/-- The full payload the backing refers to. -/
def Inner.fullData {α : Type} : Inner α → Store α → List α
  | .static d, _ => d
  | .arc id, s => s.data id

/-- A windowed view: backing handle, offset, length.  Mirrors struct FigBuf. -/
structure FigBuf (α : Type) where
  inner : Inner α
  offset : Nat
  len : Nat
deriving DecidableEq

/-- FigBuf::from_vec: move owned data into a fresh Arc, full-range view. -/
def FigBuf.from_vec {α : Type} (v : List α) (s : Store α) : FigBuf α × Store α :=
  let p := s.alloc v
  (⟨Inner.arc p.1, 0, v.length⟩, p.2)

/-- FigBuf::from_static: wrap a static reference, full-range view, no counting. -/
def FigBuf.from_static {α : Type} (v : List α) : FigBuf α :=
  ⟨Inner.static v, 0, v.length⟩

/-- FigBuf::as_slice: the visible sub-range [offset, offset+len) of the backing. -/
def FigBuf.as_slice {α : Type} (b : FigBuf α) (s : Store α) : List α :=
  ((b.inner.fullData s).drop b.offset).take b.len

/-- Rust range indexing xs[start..stop]. -/
def listRange {α : Type} (xs : List α) (start stop : Nat) : List α :=
  (xs.take stop).drop start

/-- Outcomes of the two range assertions in FigBuf::slice. -/
inductive SliceErr where
  | startGtEnd : SliceErr
  | endOutOfBounds : SliceErr
deriving DecidableEq

/-- FigBuf::slice for a Range start..stop: validates start <= stop <= len, then
shares the backing (cloning the handle) with offset += start, len = stop - start. -/
def FigBuf.slice {α : Type} (b : FigBuf α) (start stop : Nat) (s : Store α) :
    Except SliceErr (FigBuf α × Store α) :=
  if ¬ start ≤ stop then .error .startGtEnd
  else if ¬ stop ≤ b.len then .error .endOutOfBounds
  else
    let p := b.inner.clone s
    .ok (⟨p.1, b.offset + start, stop - start⟩, p.2)

/-- FigBuf::ref_count: usize::MAX for static backings, the Arc strong count otherwise. -/
def USIZE_MAX : Nat := 2 ^ 64 - 1

def FigBuf.ref_count {α : Type} (b : FigBuf α) (s : Store α) : Nat :=
  match b.inner with
  | .static _ => USIZE_MAX
  | .arc id => s.count id

/-- FigBuf::is_static. -/
def FigBuf.is_static {α : Type} (b : FigBuf α) : Bool :=
  match b.inner with
  | .static _ => true
  | .arc _ => false

/-- impl Clone for FigBuf: clone the backing handle, keep offset and len. -/
def FigBuf.clone {α : Type} (b : FigBuf α) (s : Store α) : FigBuf α × Store α :=
  let p := b.inner.clone s
  (⟨p.1, b.offset, b.len⟩, p.2)

/-- FigBuf::get_mut: a mutable view of [offset, offset+len) iff the backing is an
Arc with strong count exactly 1; None for static backings or shared Arcs. -/
def FigBuf.get_mut {α : Type} (b : FigBuf α) (s : Store α) : Option (List α) :=
  match b.inner with
  | .static _ => none
  | .arc id =>
      if s.count id = 1 then some (((s.data id).drop b.offset).take b.len) else none

/-- FigBuf::try_mut delegates to get_mut. -/
def FigBuf.try_mut {α : Type} (b : FigBuf α) (s : Store α) : Option (List α) :=
  b.get_mut s

/-- The needs_clone condition computed by FigBuf::make_mut: static backing, or a
view not covering the whole Arc payload, or a strong count above 1. -/
def FigBuf.needsClone {α : Type} (b : FigBuf α) (s : Store α) : Bool :=
  match b.inner with
  | .static _ => true
  | .arc id =>
      decide (b.offset ≠ 0) || decide (b.len ≠ (s.data id).length)
        || decide (s.count id > 1)

/-- Dropping one backing handle: no-op for static, count decrement for Arc. -/
def Inner.dropHandle {α : Type} : Inner α → Store α → Store α
  | .static _, s => s
  | .arc id, s => s.dec id

/-- FigBuf::make_mut: if needs_clone, copy the visible sub-range into a fresh
Arc (from_vec) and rebind the view, dropping the old handle; otherwise leave
the view as is.  Returns the updated view and store. -/
def FigBuf.make_mut {α : Type} (b : FigBuf α) (s : Store α) : FigBuf α × Store α :=
  if b.needsClone s then
    let cloned := b.as_slice s
    let p := FigBuf.from_vec cloned s
    (p.1, b.inner.dropHandle p.2)
  else (b, s)

/-- A view that is live in the store: its Arc id (if any) is allocated and has
at least one owner. -/
def FigBuf.live {α : Type} (b : FigBuf α) (s : Store α) : Prop :=
  match b.inner with
  | .static _ => True
  | .arc id => id < s.next ∧ 1 ≤ s.count id

/-- impl PartialEq for FigBuf: content equality of the two visible slices. -/
def FigBuf.beq {α : Type} [DecidableEq α] (a b : FigBuf α) (s : Store α) : Bool :=
  decide (a.as_slice s = b.as_slice s)

/-- impl Hash for FigBuf: the view hashes exactly as its visible slice does,
for any hash function on lists. -/
def FigBuf.hashWith {α : Type} (h : List α → Nat) (b : FigBuf α) (s : Store α) : Nat :=
  h (b.as_slice s)

/-- str::is_char_boundary over UTF-8 bytes: index 0 is a boundary; an index
inside the text is a boundary iff its byte is not a continuation byte
(byte as i8 at least -0x40, i.e. below 0x80 or at least 0xC0); the index just
past the end is a boundary; larger indices are not. -/
def is_char_boundary (l : List Nat) (i : Nat) : Bool :=
  if i = 0 then true
  else
    match l[i]? with
    | none => i == l.length
    | some b => decide (b < 0x80) || decide (0xC0 ≤ b)

/-- Outcomes of the four assertions in FigBuf::<str>::slice. -/
inductive StrSliceErr where
  | startGtEnd : StrSliceErr
  | endOutOfBounds : StrSliceErr
  | startNotBoundary : StrSliceErr
  | endNotBoundary : StrSliceErr
deriving DecidableEq

/-- FigBuf::<str>::slice: the range checks of the generic slice, then both
bounds must be char boundaries of the current view's text (as_str), then the
backing is shared exactly as in the generic slice. -/
def FigBuf.str_slice (b : FigBuf Nat) (start stop : Nat) (s : Store Nat) :
    Except StrSliceErr (FigBuf Nat × Store Nat) :=
  if ¬ start ≤ stop then .error .startGtEnd
  else if ¬ stop ≤ b.len then .error .endOutOfBounds
  else if ¬ is_char_boundary (b.as_slice s) start then .error .startNotBoundary
  else if ¬ is_char_boundary (b.as_slice s) stop then .error .endNotBoundary
  else
    let p := b.inner.clone s
    .ok (⟨p.1, b.offset + start, stop - start⟩, p.2)

/-- SmallFigBuf: inline storage (fixed array of N bytes plus logical length) or
heap storage through a FigBuf.  Mirrors enum SmallInner of src/small.rs. -/
inductive SmallFigBuf (N : Nat) where
  | inline : List Nat → Nat → SmallFigBuf N
  | heap : FigBuf Nat → SmallFigBuf N
deriving DecidableEq

/-- SmallFigBuf::new: empty inline buffer. -/
def SmallFigBuf.new (N : Nat) : SmallFigBuf N :=
  .inline (List.replicate N 0) 0

/-- SmallFigBuf::from_slice: inline copy (padded with zeros to capacity N) when
the payload fits, otherwise a heap FigBuf built by from_vec. -/
def SmallFigBuf.from_slice (N : Nat) (v : List Nat) (s : Store Nat) :
    SmallFigBuf N × Store Nat :=
  if v.length ≤ N then
    (.inline (v ++ List.replicate (N - v.length) 0) v.length, s)
  else
    let p := FigBuf.from_vec v s
    (.heap p.1, p.2)

/-- SmallFigBuf::from_vec: delegates to from_slice when the payload fits,
otherwise moves the payload to the heap. -/
def SmallFigBuf.from_vec (N : Nat) (v : List Nat) (s : Store Nat) :
    SmallFigBuf N × Store Nat :=
  if v.length ≤ N then SmallFigBuf.from_slice N v s
  else
    let p := FigBuf.from_vec v s
    (.heap p.1, p.2)

/-- SmallFigBuf::is_inline. -/
def SmallFigBuf.is_inline {N : Nat} : SmallFigBuf N → Bool
  | .inline _ _ => true
  | .heap _ => false

/-- SmallFigBuf::is_heap. -/
def SmallFigBuf.is_heap {N : Nat} : SmallFigBuf N → Bool
  | .inline _ _ => false
  | .heap _ => true

/-- SmallFigBuf::len: the logical length. -/
def SmallFigBuf.len {N : Nat} (b : SmallFigBuf N) : Nat :=
  match b with
  | .inline _ len => len
  | .heap buf => buf.len

/-- SmallFigBuf::as_slice. -/
def SmallFigBuf.as_slice {N : Nat} (b : SmallFigBuf N) (s : Store Nat) : List Nat :=
  match b with
  | .inline data len => data.take len
  | .heap buf => buf.as_slice s

/-- Outcomes of SmallFigBuf::slice: the two range assertions plus the
unreachable branch for an inline sub-range exceeding capacity. -/
inductive SmallSliceErr where
  | startGtEnd : SmallSliceErr
  | endOutOfBounds : SmallSliceErr
  | inlineOverflow : SmallSliceErr
deriving DecidableEq

/-- SmallFigBuf::slice: validates the range against the logical length; an
inline buffer is sliced by copying the requested bytes into a fresh
zero-padded array when they fit in N (the else branch is unreachable in the
source); a heap buffer delegates to FigBuf's zero-copy slice. -/
def SmallFigBuf.slice {N : Nat} (b : SmallFigBuf N) (start stop : Nat)
    (s : Store Nat) : Except SmallSliceErr (SmallFigBuf N × Store Nat) :=
  if ¬ start ≤ stop then .error .startGtEnd
  else if ¬ stop ≤ b.len then .error .endOutOfBounds
  else
    match b with
    | .inline data _ =>
        if stop - start ≤ N then
          .ok (.inline (listRange data start stop ++
                 List.replicate (N - (stop - start)) 0) (stop - start), s)
        else .error .inlineOverflow
    | .heap buf =>
        match buf.slice start stop s with
        | .ok p => .ok (.heap p.1, p.2)
        | .error .startGtEnd => .error .startGtEnd
        | .error .endOutOfBounds => .error .endOutOfBounds

theorem Inner.clone_fst {α : Type} (i : Inner α) (s : Store α) :
    (i.clone s).1 = i := by
  cases i <;> rfl

theorem Inner.clone_data {α : Type} (i : Inner α) (s : Store α) (j : Nat) :
    (i.clone s).2.data j = s.data j := by
  cases i <;> rfl

theorem Inner.clone_next {α : Type} (i : Inner α) (s : Store α) :
    (i.clone s).2.next = s.next := by
  cases i <;> rfl

theorem listRange_take_len {α : Type} (xs : List α) (len start stop : Nat)
    (h : stop ≤ len) :
    listRange (xs.take len) start stop = (xs.drop start).take (stop - start) := by
  unfold listRange
  rw [List.take_take, Nat.min_eq_left h, List.drop_take]

theorem Inner.fullData_clone {α : Type} (i : Inner α) (s : Store α) :
    i.fullData (i.clone s).2 = i.fullData s := by
  cases i <;> rfl

/-- slice with a valid range succeeds and returns the expected view and the
store with the backing handle cloned. -/
theorem slice_ok {α : Type} (b : FigBuf α) (s : Store α) (start stop : Nat)
    (h1 : start ≤ stop) (h2 : stop ≤ b.len) :
    b.slice start stop s =
      .ok (⟨b.inner, b.offset + start, stop - start⟩, (b.inner.clone s).2) := by
  unfold FigBuf.slice
  rw [if_neg (not_not.mpr h1), if_neg (not_not.mpr h2)]
  show Except.ok
      ((⟨(b.inner.clone s).1, b.offset + start, stop - start⟩ : FigBuf α),
        (b.inner.clone s).2) =
    Except.ok
      ((⟨b.inner, b.offset + start, stop - start⟩ : FigBuf α), (b.inner.clone s).2)
  rw [Inner.clone_fst]

/-- C1: for every view and valid range start <= stop <= len, slice produces a new
view with the same backing, offset = self.offset + start, length = stop - start,
copies no payload data (store payloads and next id unchanged, the Arc strong
count merely incremented), and the new view's read-access equals the sub-range
[start, stop) of the original view's read-access. -/
theorem c1_slice_read_access {α : Type} (b : FigBuf α) (s : Store α)
    (start stop : Nat) (h1 : start ≤ stop) (h2 : stop ≤ b.len) :
    ∃ s', b.slice start stop s =
        .ok (⟨b.inner, b.offset + start, stop - start⟩, s') ∧
      (∀ j, s'.data j = s.data j) ∧ s'.next = s.next ∧
      FigBuf.as_slice ⟨b.inner, b.offset + start, stop - start⟩ s' =
        listRange (b.as_slice s) start stop ∧
      (∀ id, b.inner = .arc id → s'.count id = s.count id + 1) := by
  refine ⟨(b.inner.clone s).2, slice_ok b s start stop h1 h2,
    Inner.clone_data b.inner s, Inner.clone_next b.inner s, ?_, ?_⟩
  · show ((b.inner.fullData (b.inner.clone s).2).drop (b.offset + start)).take
        (stop - start) = listRange (b.as_slice s) start stop
    rw [Inner.fullData_clone]
    unfold FigBuf.as_slice
    rw [listRange_take_len _ b.len start stop h2, List.drop_drop]
  · intro id hid
    rw [hid]
    show (s.bump id).count id = s.count id + 1
    unfold Store.bump
    simp

/-- C1 witness at a concrete static view of three elements, sliced to [1, 3). -/
theorem c1_slice_read_access_witness :
    ∃ s', (FigBuf.from_static [10, 20, 30]).slice 1 3 (Store.empty Nat) =
        .ok (⟨Inner.static [10, 20, 30], 1, 2⟩, s') ∧
      FigBuf.as_slice ⟨Inner.static [10, 20, 30], 1, 2⟩ s' =
        listRange ((FigBuf.from_static [10, 20, 30]).as_slice (Store.empty Nat)) 1 3 := by
  obtain ⟨s', hok, -, -, hread, -⟩ :=
    c1_slice_read_access (FigBuf.from_static [10, 20, 30]) (Store.empty Nat) 1 3
      (by decide) (by decide)
  exact ⟨s', hok, hread⟩

/-- C2: slicing composes: slicing by [s1, e1) then by [s2, e2) gives exactly the
view obtained by slicing once by [s1 + s2, s1 + e2), a single flat offset and
length against the original backing. -/
theorem c2_slice_compose {α : Type} (b : FigBuf α) (s : Store α)
    (s1 e1 s2 e2 : Nat) (h1 : s1 ≤ e1) (h2 : e1 ≤ b.len) (h3 : s2 ≤ e2)
    (h4 : e2 ≤ e1 - s1) :
    ∃ v1 st1 v2 st2 st3,
      b.slice s1 e1 s = .ok (v1, st1) ∧
      v1.slice s2 e2 st1 = .ok (v2, st2) ∧
      b.slice (s1 + s2) (s1 + e2) s = .ok (v2, st3) ∧
      v2.inner = b.inner ∧ v2.offset = b.offset + s1 + s2 ∧ v2.len = e2 - s2 := by
  refine ⟨⟨b.inner, b.offset + s1, e1 - s1⟩, (b.inner.clone s).2,
    ⟨b.inner, b.offset + s1 + s2, e2 - s2⟩, (b.inner.clone (b.inner.clone s).2).2,
    (b.inner.clone s).2, slice_ok b s s1 e1 h1 h2, ?_, ?_, rfl, rfl, rfl⟩
  · exact slice_ok ⟨b.inner, b.offset + s1, e1 - s1⟩ (b.inner.clone s).2 s2 e2 h3 h4
  · have hv : (⟨b.inner, b.offset + (s1 + s2), s1 + e2 - (s1 + s2)⟩ : FigBuf α) =
        ⟨b.inner, b.offset + s1 + s2, e2 - s2⟩ := by
      have ho : b.offset + (s1 + s2) = b.offset + s1 + s2 := by omega
      have hl : s1 + e2 - (s1 + s2) = e2 - s2 := by omega
      rw [ho, hl]
    have := slice_ok b s (s1 + s2) (s1 + e2) (by omega) (by omega)
    rw [hv] at this
    exact this

/-- C2 witness at a concrete heap view of five elements, [1, 5) then [1, 3). -/
theorem c2_slice_compose_witness :
    ∃ v1 st1 v2 st2 st3,
      (FigBuf.from_vec [1, 2, 3, 4, 5] (Store.empty Nat)).1.slice 1 5
          (FigBuf.from_vec [1, 2, 3, 4, 5] (Store.empty Nat)).2 = .ok (v1, st1) ∧
      v1.slice 1 3 st1 = .ok (v2, st2) ∧
      (FigBuf.from_vec [1, 2, 3, 4, 5] (Store.empty Nat)).1.slice 2 4
          (FigBuf.from_vec [1, 2, 3, 4, 5] (Store.empty Nat)).2 = .ok (v2, st3) ∧
      v2.offset = 2 ∧ v2.len = 2 := by
  obtain ⟨v1, st1, v2, st2, st3, ha, hb, hc, -, hoff, hlen⟩ :=
    c2_slice_compose (FigBuf.from_vec [1, 2, 3, 4, 5] (Store.empty Nat)).1
      (FigBuf.from_vec [1, 2, 3, 4, 5] (Store.empty Nat)).2 1 5 1 3
      (by decide) (by decide) (by decide) (by decide)
  exact ⟨v1, st1, v2, st2, st3, ha, hb, hc, hoff, hlen⟩

/-- C6 counterexample: a heap view over the ten elements 0..9, sliced to [2, 8)
and then to [1, 4), shows the elements 3, 4, 5 — not the elements 5, 6, 7 the
claim asserts. -/
theorem c6_slice_scenario_cex :
    ((FigBuf.from_vec [0, 1, 2, 3, 4, 5, 6, 7, 8, 9] (Store.empty Nat)).1.slice 2 8
          (FigBuf.from_vec [0, 1, 2, 3, 4, 5, 6, 7, 8, 9] (Store.empty Nat)).2).toOption.bind
        (fun p => (p.1.slice 1 4 p.2).toOption.map (fun q => q.1.as_slice q.2)) =
      some [3, 4, 5] ∧
    some [3, 4, 5] ≠ some ([5, 6, 7] : List Nat) := by
  exact ⟨by decide, by decide⟩

/-- C6 amended: a heap view over the ten elements 0..9, sliced to [2, 8) and
then to [1, 4), shows exactly the elements originally at source indices 3, 4, 5
of the backing (positions 1, 2, 3 relative to the first slice), sitting at flat
offset 3 with length 3. -/
theorem c6_slice_scenario :
    ∃ v1 s1 v2 s2,
      (FigBuf.from_vec [0, 1, 2, 3, 4, 5, 6, 7, 8, 9] (Store.empty Nat)).1.slice 2 8
          (FigBuf.from_vec [0, 1, 2, 3, 4, 5, 6, 7, 8, 9] (Store.empty Nat)).2 =
        .ok (v1, s1) ∧
      v1.slice 1 4 s1 = .ok (v2, s2) ∧
      v2.as_slice s2 = [3, 4, 5] ∧ v2.offset = 3 ∧ v2.len = 3 := by
  refine ⟨_, _, _, _, rfl, rfl, ?_, ?_, ?_⟩ <;> decide

theorem make_mut_of_needsClone {α : Type} (b : FigBuf α) (s : Store α)
    (h : b.needsClone s = true) :
    b.make_mut s = ((FigBuf.from_vec (b.as_slice s) s).1,
      b.inner.dropHandle (FigBuf.from_vec (b.as_slice s) s).2) := by
  unfold FigBuf.make_mut
  rw [if_pos h]

theorem make_mut_of_not_needsClone {α : Type} (b : FigBuf α) (s : Store α)
    (h : b.needsClone s = false) :
    b.make_mut s = (b, s) := by
  unfold FigBuf.make_mut
  rw [if_neg (by rw [h]; exact Bool.false_ne_true)]

/-- C3: make_mut copies iff the backing is static, the view does not cover the
whole backing, or the strong count exceeds 1; when it copies it copies exactly
the visible sub-range into a brand-new Arc with count 1 and offset 0; afterwards
the view is never static, its share count is exactly 1, its visible content is
unchanged, and every previously allocated backing keeps its data, so sibling
views are unaffected. -/
theorem c3_make_mut_spec {α : Type} (b : FigBuf α) (s : Store α)
    (hlive : b.live s) :
    (b.make_mut s).1.is_static = false ∧
    (b.make_mut s).1.ref_count (b.make_mut s).2 = 1 ∧
    (b.make_mut s).1.as_slice (b.make_mut s).2 = b.as_slice s ∧
    (∀ j, j < s.next → (b.make_mut s).2.data j = s.data j) ∧
    (b.needsClone s = true →
      (b.make_mut s).1.inner = Inner.arc s.next ∧
      (b.make_mut s).1.offset = 0 ∧
      (b.make_mut s).2.count s.next = 1 ∧
      (b.make_mut s).2.data s.next = b.as_slice s) ∧
    (b.needsClone s = false → b.make_mut s = (b, s)) ∧
    (b.needsClone s = true ↔
      b.is_static = true ∨ ∃ id, b.inner = Inner.arc id ∧
        (b.offset ≠ 0 ∨ b.len ≠ (s.data id).length ∨ 1 < s.count id)) := by
  have hiff : b.needsClone s = true ↔
      b.is_static = true ∨ ∃ id, b.inner = Inner.arc id ∧
        (b.offset ≠ 0 ∨ b.len ≠ (s.data id).length ∨ 1 < s.count id) := by
    rcases hinner : b.inner with d | id
    · simp [FigBuf.needsClone, FigBuf.is_static, hinner]
    · simp only [FigBuf.needsClone, FigBuf.is_static, hinner, Bool.or_eq_true,
        decide_eq_true_eq, Inner.arc.injEq, exists_eq_left', gt_iff_lt]
      rw [or_assoc]
      simp
  by_cases hc : b.needsClone s = true
  · rw [make_mut_of_needsClone b s hc]
    have hdata : ∀ j, (b.inner.dropHandle (FigBuf.from_vec (b.as_slice s) s).2).data j =
        (FigBuf.from_vec (b.as_slice s) s).2.data j := by
      intro j
      rcases b.inner with d | id <;> rfl
    have hcount : ∀ j, j ≠ s.next →
        ((FigBuf.from_vec (b.as_slice s) s).2).count j = s.count j := by
      intro j hj
      show (if j = s.next then 1 else s.count j) = s.count j
      rw [if_neg hj]
    have hcountKeep : (b.inner.dropHandle (FigBuf.from_vec (b.as_slice s) s).2).count s.next =
        (FigBuf.from_vec (b.as_slice s) s).2.count s.next := by
      rcases hinner : b.inner with d | id
      · rfl
      · show (Store.dec _ id).count s.next = _
        have hid : id < s.next := by
          have := hlive
          unfold FigBuf.live at this
          rw [hinner] at this
          exact this.1
        show (if s.next = id then _ - 1 else _) = _
        rw [if_neg (by omega)]
    have hcself : ((FigBuf.from_vec (b.as_slice s) s).2).count s.next = 1 := by
      show (if s.next = s.next then 1 else s.count s.next) = 1
      rw [if_pos rfl]
    have hdself : ((FigBuf.from_vec (b.as_slice s) s).2).data s.next = b.as_slice s := by
      show (if s.next = s.next then b.as_slice s else s.data s.next) = _
      rw [if_pos rfl]
    refine ⟨rfl, ?_, ?_, ?_, fun _ => ⟨rfl, rfl, ?_, ?_⟩,
      fun h => absurd (hc.symm.trans h) (by simp), hiff⟩
    · show (b.inner.dropHandle (FigBuf.from_vec (b.as_slice s) s).2).count s.next = 1
      rw [hcountKeep, hcself]
    · show (((b.inner.dropHandle (FigBuf.from_vec (b.as_slice s) s).2).data s.next).drop 0).take
          (b.as_slice s).length = b.as_slice s
      rw [hdata, hdself, List.drop_zero, List.take_length]
    · intro j hj
      rw [hdata]
      show (if j = s.next then b.as_slice s else s.data j) = s.data j
      rw [if_neg (by omega)]
    · rw [hcountKeep, hcself]
    · rw [hdata, hdself]
  · have hc' : b.needsClone s = false := by
      cases h : b.needsClone s
      · rfl
      · exact absurd h hc
    rw [make_mut_of_not_needsClone b s hc']
    have harc : ∃ id, b.inner = Inner.arc id := by
      rcases h2 : b.inner with d | id
      · exfalso
        apply hc
        unfold FigBuf.needsClone
        rw [h2]
      · exact ⟨id, rfl⟩
    obtain ⟨id, hinner⟩ := harc
    have hflags : (b.offset = 0 ∧ b.len = (s.data id).length) ∧ s.count id ≤ 1 := by
      have h3 := hc'
      unfold FigBuf.needsClone at h3
      rw [hinner] at h3
      simpa using h3
    have hl : id < s.next ∧ 1 ≤ s.count id := by
      have h4 := hlive
      unfold FigBuf.live at h4
      rw [hinner] at h4
      exact h4
    refine ⟨?_, ?_, rfl, fun j _ => rfl,
      fun h => absurd (hc'.symm.trans h) (by simp), fun _ => rfl, hiff⟩
    · unfold FigBuf.is_static
      rw [hinner]
    · show b.ref_count s = 1
      unfold FigBuf.ref_count
      rw [hinner]
      show s.count id = 1
      omega

/-- C3 witness: make_mut on a static view of three elements in the empty store
yields a non-static exclusively owned view with the same visible content. -/
theorem c3_make_mut_spec_witness :
    ((FigBuf.from_static [1, 2, 3]).make_mut (Store.empty Nat)).1.is_static = false ∧
    ((FigBuf.from_static [1, 2, 3]).make_mut (Store.empty Nat)).1.ref_count
      ((FigBuf.from_static [1, 2, 3]).make_mut (Store.empty Nat)).2 = 1 ∧
    ((FigBuf.from_static [1, 2, 3]).make_mut (Store.empty Nat)).1.as_slice
      ((FigBuf.from_static [1, 2, 3]).make_mut (Store.empty Nat)).2 =
      (FigBuf.from_static [1, 2, 3]).as_slice (Store.empty Nat) := by
  obtain ⟨h1, h2, h3, -, -, -, -⟩ :=
    c3_make_mut_spec (FigBuf.from_static [1, 2, 3]) (Store.empty Nat) trivial
  exact ⟨h1, h2, h3⟩

/-- C4: get_mut (and try_mut, which delegates to it) yields the mutable visible
sub-range exactly when the backing is an Arc whose strong count is 1; it yields
the normal negative result none for every static view and for every Arc view
whose count is not 1. -/
theorem c4_get_mut_spec {α : Type} (b : FigBuf α) (s : Store α) :
    (∀ d, b.inner = Inner.static d → b.get_mut s = none) ∧
    (∀ id, b.inner = Inner.arc id →
      (s.count id = 1 → b.get_mut s = some (b.as_slice s)) ∧
      (s.count id ≠ 1 → b.get_mut s = none)) ∧
    b.try_mut s = b.get_mut s := by
  obtain ⟨inner, off, len⟩ := b
  refine ⟨?_, ?_, rfl⟩
  · intro d hd
    cases inner
    · rfl
    · exact absurd hd (by simp)
  · intro id hid
    cases inner with
    | static d => exact absurd hid (by simp)
    | arc id0 =>
        have : id0 = id := by
          injection hid
        subst this
        constructor
        · intro h1
          show (if s.count id0 = 1 then _ else none) = _
          rw [if_pos h1]
          rfl
        · intro h1
          show (if s.count id0 = 1 then _ else none) = none
          rw [if_neg h1]

/-- C4 witness: a freshly created heap view is sole owner, so get_mut yields its
visible content; after one clone the count is 2 and get_mut yields none. -/
theorem c4_get_mut_spec_witness :
    (FigBuf.from_vec [7, 8] (Store.empty Nat)).1.get_mut
      (FigBuf.from_vec [7, 8] (Store.empty Nat)).2 = some [7, 8] ∧
    (FigBuf.from_vec [7, 8] (Store.empty Nat)).1.get_mut
      ((FigBuf.from_vec [7, 8] (Store.empty Nat)).1.clone
        (FigBuf.from_vec [7, 8] (Store.empty Nat)).2).2 = none := by
  constructor
  · exact (((c4_get_mut_spec (FigBuf.from_vec [7, 8] (Store.empty Nat)).1
      (FigBuf.from_vec [7, 8] (Store.empty Nat)).2).2.1 0 rfl).1 (by decide)).trans
      (by decide)
  · exact ((c4_get_mut_spec (FigBuf.from_vec [7, 8] (Store.empty Nat)).1
      ((FigBuf.from_vec [7, 8] (Store.empty Nat)).1.clone
        (FigBuf.from_vec [7, 8] (Store.empty Nat)).2).2).2.1 0 rfl).2 (by decide)

/-- C8: ref_count is the sentinel usize::MAX for every static view, and cloning
a static view changes neither the view nor the store, so the sentinel persists
across any number of clones; cloning an Arc view preserves backing reference,
offset and length and increments the share count by exactly 1. -/
theorem c8_clone_ref_count {α : Type} (b : FigBuf α) (s : Store α) :
    (∀ d, b.inner = Inner.static d →
      b.clone s = (b, s) ∧ b.ref_count s = USIZE_MAX) ∧
    (∀ id, b.inner = Inner.arc id →
      (b.clone s).1.inner = b.inner ∧ (b.clone s).1.offset = b.offset ∧
      (b.clone s).1.len = b.len ∧
      (b.clone s).1.ref_count (b.clone s).2 = b.ref_count s + 1 ∧
      (∀ j, (b.clone s).2.data j = s.data j)) := by
  obtain ⟨inner, off, len⟩ := b
  constructor
  · intro d hd
    cases inner with
    | static d0 => exact ⟨rfl, rfl⟩
    | arc id0 => exact absurd hd (by simp)
  · intro id hid
    cases inner with
    | static d0 => exact absurd hid (by simp)
    | arc id0 =>
        refine ⟨rfl, rfl, rfl, ?_, fun j => rfl⟩
        show (Store.bump s id0).count id0 = s.count id0 + 1
        unfold Store.bump
        simp

/-- C8 witness: a static view keeps the sentinel count; a fresh Arc view has
count 1 and count 2 after one clone. -/
theorem c8_clone_ref_count_witness :
    (FigBuf.from_static [4, 5]).ref_count (Store.empty Nat) = USIZE_MAX ∧
    ((FigBuf.from_vec [1] (Store.empty Nat)).1.clone
        (FigBuf.from_vec [1] (Store.empty Nat)).2).1.ref_count
      ((FigBuf.from_vec [1] (Store.empty Nat)).1.clone
        (FigBuf.from_vec [1] (Store.empty Nat)).2).2 = 2 := by
  constructor
  · exact ((c8_clone_ref_count (FigBuf.from_static [4, 5]) (Store.empty Nat)).1
      [4, 5] rfl).2
  · exact (((c8_clone_ref_count (FigBuf.from_vec [1] (Store.empty Nat)).1
      (FigBuf.from_vec [1] (Store.empty Nat)).2).2 0 rfl).2.2.2.1).trans (by decide)

/-- C10: equality of views is content-based: two views are equal iff their
visible slices are element-wise equal, irrespective of backing variant, offset
or share count; and since a view hashes exactly as its visible slice does,
equal views hash identically under every hash function. -/
theorem c10_eq_hash_content {α : Type} [DecidableEq α] (a b : FigBuf α)
    (s : Store α) :
    (FigBuf.beq a b s = true ↔ a.as_slice s = b.as_slice s) ∧
    (FigBuf.beq a b s = true →
      ∀ h : List α → Nat, FigBuf.hashWith h a s = FigBuf.hashWith h b s) := by
  constructor
  · unfold FigBuf.beq
    exact decide_eq_true_iff
  · intro he h
    unfold FigBuf.hashWith
    unfold FigBuf.beq at he
    rw [of_decide_eq_true he]

/-- C10 witness: a static view of two elements and an offset heap view with the
same visible content compare equal and hash alike, despite different backing
variants, offsets and share counts. -/
theorem c10_eq_hash_content_witness :
    FigBuf.beq (FigBuf.from_static [2, 3]) ⟨Inner.arc 0, 1, 2⟩
      (FigBuf.from_vec [1, 2, 3, 4] (Store.empty Nat)).2 = true ∧
    FigBuf.hashWith List.length (FigBuf.from_static [2, 3])
        (FigBuf.from_vec [1, 2, 3, 4] (Store.empty Nat)).2 =
      FigBuf.hashWith List.length ⟨Inner.arc 0, 1, 2⟩
        (FigBuf.from_vec [1, 2, 3, 4] (Store.empty Nat)).2 := by
  constructor
  · exact (c10_eq_hash_content (FigBuf.from_static [2, 3]) ⟨Inner.arc 0, 1, 2⟩
      (FigBuf.from_vec [1, 2, 3, 4] (Store.empty Nat)).2).1.mpr (by decide)
  · exact (c10_eq_hash_content (FigBuf.from_static [2, 3]) ⟨Inner.arc 0, 1, 2⟩
      (FigBuf.from_vec [1, 2, 3, 4] (Store.empty Nat)).2).2
      ((c10_eq_hash_content (FigBuf.from_static [2, 3]) ⟨Inner.arc 0, 1, 2⟩
        (FigBuf.from_vec [1, 2, 3, 4] (Store.empty Nat)).2).1.mpr (by decide))
      List.length

/-- C5 counterexample: with capacity N = 0, the empty payload satisfies
length <= N and is stored inline, so a Small Buffer with N = 0 is not always
heap. -/
theorem c5_small_repr_cex :
    (SmallFigBuf.from_slice 0 [] (Store.empty Nat)).1.is_heap = false ∧
    (SmallFigBuf.from_slice 0 [] (Store.empty Nat)).1.is_inline = true := by
  exact ⟨by decide, by decide⟩

/-- C5 amended: for from_slice and from_vec, payload length <= N yields an
inline buffer and payload length > N yields a heap buffer (covering the
boundary cases length = N inline and length = N + 1 heap); with N = 0 every
nonempty payload is heap, while the empty payload is inline. -/
theorem c5_small_repr (N : Nat) (v : List Nat) (s : Store Nat) :
    (v.length ≤ N → (SmallFigBuf.from_slice N v s).1.is_inline = true ∧
      (SmallFigBuf.from_vec N v s).1.is_inline = true) ∧
    (N < v.length → (SmallFigBuf.from_slice N v s).1.is_heap = true ∧
      (SmallFigBuf.from_vec N v s).1.is_heap = true) ∧
    (N = 0 → v ≠ [] → (SmallFigBuf.from_slice N v s).1.is_heap = true) ∧
    (N = 0 → v = [] → (SmallFigBuf.from_slice N v s).1.is_inline = true) := by
  have hs_in : v.length ≤ N → (SmallFigBuf.from_slice N v s).1.is_inline = true := by
    intro h
    unfold SmallFigBuf.from_slice
    rw [if_pos h]
    rfl
  have hs_hp : N < v.length → (SmallFigBuf.from_slice N v s).1.is_heap = true := by
    intro h
    unfold SmallFigBuf.from_slice
    rw [if_neg (by omega)]
    rfl
  refine ⟨fun h => ⟨hs_in h, ?_⟩, fun h => ⟨hs_hp h, ?_⟩, fun hN hv => ?_, fun hN hv => ?_⟩
  · unfold SmallFigBuf.from_vec
    rw [if_pos h]
    exact hs_in h
  · unfold SmallFigBuf.from_vec
    rw [if_neg (by omega)]
    rfl
  · refine hs_hp ?_
    rcases v with _ | ⟨a, t⟩
    · exact absurd rfl hv
    · rw [hN]
      exact Nat.zero_lt_succ t.length
  · refine hs_in ?_
    rw [hv]
    exact Nat.zero_le N

/-- C5 witness: capacity 2 holds a 2-byte payload inline and spills a 3-byte
payload to the heap, for both constructors. -/
theorem c5_small_repr_witness :
    ((SmallFigBuf.from_slice 2 [9, 9] (Store.empty Nat)).1.is_inline = true ∧
      (SmallFigBuf.from_vec 2 [9, 9] (Store.empty Nat)).1.is_inline = true) ∧
    ((SmallFigBuf.from_slice 2 [9, 9, 9] (Store.empty Nat)).1.is_heap = true ∧
      (SmallFigBuf.from_vec 2 [9, 9, 9] (Store.empty Nat)).1.is_heap = true) :=
  ⟨(c5_small_repr 2 [9, 9] (Store.empty Nat)).1 (by decide),
   (c5_small_repr 2 [9, 9, 9] (Store.empty Nat)).2.1 (by decide)⟩

/-- C9: for an inline Small Buffer whose logical length is at most N, every
valid slice range has length at most N, so slice always succeeds with a fresh
inline value holding the requested bytes zero-padded to capacity, and the
unreachable overflow branch is never taken. -/
theorem c9_small_inline_slice (N : Nat) (data : List Nat) (len : Nat)
    (s : Store Nat) (start stop : Nat) (hlen : len ≤ N)
    (h1 : start ≤ stop) (h2 : stop ≤ len) :
    stop - start ≤ N ∧
    (SmallFigBuf.inline (N := N) data len).slice start stop s =
      .ok (.inline (listRange data start stop ++
        List.replicate (N - (stop - start)) 0) (stop - start), s) ∧
    (SmallFigBuf.inline (N := N) data len).slice start stop s ≠
      .error .inlineOverflow := by
  have hsub : stop - start ≤ N := by omega
  have heq : (SmallFigBuf.inline (N := N) data len).slice start stop s =
      .ok (.inline (listRange data start stop ++
        List.replicate (N - (stop - start)) 0) (stop - start), s) := by
    unfold SmallFigBuf.slice
    rw [if_neg (not_not.mpr h1)]
    rw [if_neg (not_not.mpr (show stop ≤ (SmallFigBuf.inline (N := N) data len).len from h2))]
    show (if stop - start ≤ N then
        Except.ok (SmallFigBuf.inline (N := N) (listRange data start stop ++
          List.replicate (N - (stop - start)) 0) (stop - start), s)
      else Except.error SmallSliceErr.inlineOverflow) = _
    rw [if_pos hsub]
  refine ⟨hsub, heq, ?_⟩
  rw [heq]
  simp

/-- C9 witness: slicing an inline buffer of capacity 4 and logical length 3 to
[1, 3) stays inline and never hits the overflow branch. -/
theorem c9_small_inline_slice_witness :
    (SmallFigBuf.inline (N := 4) [1, 2, 3, 0] 3).slice 1 3 (Store.empty Nat) ≠
      .error .inlineOverflow :=
  (c9_small_inline_slice 4 [1, 2, 3, 0] 3 (Store.empty Nat) 1 3 (by decide)
    (by decide) (by decide)).2.2

theorem is_char_boundary_zero (l : List Nat) : is_char_boundary l 0 = true := by
  unfold is_char_boundary
  rw [if_pos rfl]

theorem is_char_boundary_length (l : List Nat) :
    is_char_boundary l l.length = true := by
  unfold is_char_boundary
  rcases Nat.eq_zero_or_pos l.length with h | h
  · rw [if_pos h]
  · rw [if_neg (by omega)]
    rw [List.getElem?_eq_none (le_refl l.length)]
    simp

/-- str_slice with a valid range whose two bounds are char boundaries of the
view's text succeeds with the expected view. -/
theorem str_slice_ok (b : FigBuf Nat) (s : Store Nat) (start stop : Nat)
    (h1 : start ≤ stop) (h2 : stop ≤ b.len)
    (h3 : is_char_boundary (b.as_slice s) start = true)
    (h4 : is_char_boundary (b.as_slice s) stop = true) :
    b.str_slice start stop s =
      .ok (⟨b.inner, b.offset + start, stop - start⟩, (b.inner.clone s).2) := by
  unfold FigBuf.str_slice
  rw [if_neg (not_not.mpr h1), if_neg (not_not.mpr h2),
    if_neg (not_not.mpr h3), if_neg (not_not.mpr h4)]
  show Except.ok
      ((⟨(b.inner.clone s).1, b.offset + start, stop - start⟩ : FigBuf Nat),
        (b.inner.clone s).2) = _
  rw [Inner.clone_fst]

/-- C7: text slicing validates both bounds against char boundaries of the
current view's text: a non-boundary start fails with the start-boundary error,
a non-boundary end fails with the end-boundary error, and slicing at valid
boundaries — including the full range and empty ranges at any boundary —
succeeds. -/
theorem c7_str_slice_boundaries (b : FigBuf Nat) (s : Store Nat)
    (start stop : Nat) :
    (start ≤ stop → stop ≤ b.len →
      is_char_boundary (b.as_slice s) start = true →
      is_char_boundary (b.as_slice s) stop = true →
      b.str_slice start stop s =
        .ok (⟨b.inner, b.offset + start, stop - start⟩, (b.inner.clone s).2)) ∧
    (start ≤ stop → stop ≤ b.len →
      is_char_boundary (b.as_slice s) start = false →
      b.str_slice start stop s = .error .startNotBoundary) ∧
    (start ≤ stop → stop ≤ b.len →
      is_char_boundary (b.as_slice s) start = true →
      is_char_boundary (b.as_slice s) stop = false →
      b.str_slice start stop s = .error .endNotBoundary) ∧
    ((b.as_slice s).length = b.len →
      b.str_slice 0 b.len s =
        .ok (⟨b.inner, b.offset, b.len⟩, (b.inner.clone s).2)) ∧
    (∀ i, i ≤ b.len → is_char_boundary (b.as_slice s) i = true →
      b.str_slice i i s = .ok (⟨b.inner, b.offset + i, 0⟩, (b.inner.clone s).2)) := by
  refine ⟨str_slice_ok b s start stop, fun h1 h2 h3 => ?_, fun h1 h2 h3 h4 => ?_,
    fun hv => ?_, fun i hi hb => ?_⟩
  · unfold FigBuf.str_slice
    rw [if_neg (not_not.mpr h1), if_neg (not_not.mpr h2),
      if_pos (by rw [h3]; exact Bool.false_ne_true)]
  · unfold FigBuf.str_slice
    rw [if_neg (not_not.mpr h1), if_neg (not_not.mpr h2),
      if_neg (not_not.mpr h3), if_pos (by rw [h4]; exact Bool.false_ne_true)]
  · have h := str_slice_ok b s 0 b.len (Nat.zero_le _) le_rfl
      (is_char_boundary_zero _) (by rw [← hv]; exact is_char_boundary_length _)
    simpa using h
  · have h := str_slice_ok b s i i le_rfl hi hb hb
    simpa using h

/-- C7 witness: over the UTF-8 bytes 104, 195, 169 (the text h followed by a
two-byte character), slicing [0, 2) fails with the end-boundary error, while
slicing [1, 3) at valid boundaries succeeds. -/
theorem c7_str_slice_boundaries_witness :
    (FigBuf.from_static [104, 195, 169]).str_slice 0 2 (Store.empty Nat) =
      .error .endNotBoundary ∧
    (FigBuf.from_static [104, 195, 169]).str_slice 1 3 (Store.empty Nat) =
      .ok (⟨Inner.static [104, 195, 169], 1, 2⟩,
        (((FigBuf.from_static [104, 195, 169]) : FigBuf Nat).inner.clone
          (Store.empty Nat)).2) := by
  constructor
  · exact (c7_str_slice_boundaries (FigBuf.from_static [104, 195, 169])
      (Store.empty Nat) 0 2).2.2.1 (by decide) (by decide) (by decide) (by decide)
  · exact (c7_str_slice_boundaries (FigBuf.from_static [104, 195, 169])
      (Store.empty Nat) 1 3).1 (by decide) (by decide) (by decide) (by decide)

end Fig
